import Mathlib

/-!
Verification of the package-hound artifact resolver and existence checker
(`src/hound.py`) against its specification.  The Python code is shallowly
embedded: strings are Lean `String`s, Python `None` is `Option.none`, an
uncaught Python exception is `Except.error`, and the HTTP client is an
oracle `String → ProbeOutcome` mapping a URL to the outcome of a HEAD
request.  Regular expressions from the source are modelled as explicit
character-list matchers that follow Python's leftmost / greedy semantics
for the concrete patterns appearing in the code (names interpolated into
a pattern are matched literally).
-/

set_option maxHeartbeats 1000000

namespace PackageHound

/-! ### Python string primitives -/

/-- Default whitespace stripped by Python `str.strip` (ASCII range). -/
def pyIsSpace (c : Char) : Bool :=
  c = ' ' || c = '\t' || c = '\n' || c = '\r' || c = '\x0b' || c = '\x0c'

/-- Python `str.strip()`. -/
def pyStrip (s : String) : String :=
  ⟨((s.data.dropWhile pyIsSpace).reverse.dropWhile pyIsSpace).reverse⟩

/-- Python `str.lower()` (ASCII). -/
def pyLower (s : String) : String :=
  ⟨s.data.map Char.toLower⟩

/-- Python `c in s` for a single character. -/
def pyContainsChar (s : String) (c : Char) : Bool :=
  s.data.any (fun x => x == c)

/-- Python `str.split(sep)` on a character separator, over the character list. -/
def splitCharAux (sep : Char) : List Char → List (List Char)
  | [] => [[]]
  | c :: cs =>
    match splitCharAux sep cs with
    | [] => [[]]
    | h :: t => if c = sep then [] :: h :: t else (c :: h) :: t

/-- Python `str.split(sep)` on a single-character separator. -/
def pySplitChar (s : String) (sep : Char) : List String :=
  (splitCharAux sep s.data).map (fun l => ⟨l⟩)

/-- `os.path.basename` for POSIX paths: everything after the last slash. -/
def osBasename (s : String) : String :=
  (pySplitChar s '/').getLastD ""

/-- Python slice `l[a:b]` for non-negative bounds. -/
def pySlice (l : List String) (a b : Nat) : List String :=
  (l.drop a).take (b - a)

/-- Python `str.startswith`. -/
def pyStartsWith (s p : String) : Bool :=
  List.isPrefixOf p.data s.data

/-- Python `str.endswith`. -/
def pyEndsWith (s suf : String) : Bool :=
  List.isSuffixOf suf.data s.data

/-- Python `s.split(c, 1)` packaged as the pieces before / after the first `c`. -/
def splitOnce (c : Char) (s : String) : String × String :=
  match s.data.findIdx? (fun x => x == c) with
  | none => (s, "")
  | some i => (⟨s.data.take i⟩, ⟨s.data.drop (i + 1)⟩)

/-- Python `s.replace(a, b)` for single characters. -/
def replaceChar (a b : Char) (s : String) : String :=
  ⟨s.data.map (fun c => if c = a then b else c)⟩

/-- Python `x in l` for a list of strings. -/
def pyMemStr (x : String) (l : List String) : Bool :=
  l.any (fun y => y == x)

/-- Smallest `i < n` with `p i`, if any (leftmost regex match position). -/
def findSmallest (p : Nat → Bool) (n : Nat) : Option Nat :=
  (List.range n).find? p

/-- Largest `i < n` with `p i`, if any (greedy regex backtracking from the right). -/
def findLargest (p : Nat → Bool) : Nat → Option Nat
  | 0 => none
  | n + 1 => if p n then some n else findLargest p n

/-- Python f-string rendering of an optional value (`None` prints as "None"). -/
def optStr : Option String → String
  | none => "None"
  | some s => s

/-- Upper-case hexadecimal digit. -/
def hexUpper (n : Nat) : Char :=
  if n < 10 then Char.ofNat (48 + n) else Char.ofNat (55 + n)

/-- UTF-8 bytes of a code point. -/
def utf8Bytes (n : Nat) : List Nat :=
  if n < 128 then [n]
  else if n < 2048 then [192 + n / 64, 128 + n % 64]
  else if n < 65536 then [224 + n / 4096, 128 + (n / 64) % 64, 128 + n % 64]
  else [240 + n / 262144, 128 + (n / 4096) % 64, 128 + (n / 64) % 64, 128 + n % 64]

/-- Characters `urllib.parse.quote` leaves unescaped with the default `safe='/'`. -/
def quoteSafe (c : Char) : Bool :=
  c.isAlphanum || c = '_' || c = '.' || c = '-' || c = '~' || c = '/'

/-- `urllib.parse.quote` with the default `safe='/'`. -/
def pyQuote (s : String) : String :=
  ⟨s.data.foldr
    (fun c acc =>
      if quoteSafe c then c :: acc
      else (utf8Bytes c.toNat).foldr
        (fun b acc2 => '%' :: hexUpper (b / 16) :: hexUpper (b % 16) :: acc2) acc)
    []⟩

/-! ### Models of the regular expressions used by the resolver -/

/-- `\d+` at the head: the digit run and the rest. -/
def takeNum : List Char → Option (List Char × List Char)
  | [] => none
  | c :: r =>
    if c.isDigit then some (c :: r.takeWhile Char.isDigit, r.dropWhile Char.isDigit) else none

/-- `\d+` at the head, keeping only the rest. -/
def dropNum (l : List Char) : Option (List Char) :=
  (takeNum l).map (fun pr => pr.2)

/-- A character of the class `[a-zA-Z0-9.-]`. -/
def isSuffixChar (c : Char) : Bool :=
  c.isAlphanum || c = '.' || c = '-'

/-- `(?:[-+][a-zA-Z0-9.-]+)` consuming the whole input. -/
def suffixOk : List Char → Bool
  | c :: d :: r => (c = '-' || c = '+') && (d :: r).all isSuffixChar
  | _ => false

/-- The tail of the nupkg version pattern after `\d+\.\d+\.\d+`:
`(?:\.\d+)?(?:[-+][a-zA-Z0-9.-]+)?$`. -/
def afterThird (r : List Char) : Bool :=
  match r with
  | [] => true
  | '.' :: s =>
    (match dropNum s with
     | some t => t.isEmpty || suffixOk t
     | none => false)
  | _ => suffixOk r

/-- Whole-input match of `\d+\.\d+\.\d+(?:\.\d+)?(?:[-+][a-zA-Z0-9.-]+)?`,
the version part of the nupkg-filename pattern in `_extract_package_name`. -/
def isVersionChars (l : List Char) : Bool :=
  match dropNum l with
  | none => false
  | some r1 =>
    match r1 with
    | '.' :: s1 =>
      (match dropNum s1 with
       | none => false
       | some r2 =>
         match r2 with
         | '.' :: s2 =>
           (match dropNum s2 with
            | none => false
            | some r3 => afterThird r3)
         | _ => false)
    | _ => false

/-- Position `i` is an admissible name/version boundary of
`re.search(r'(.+)\.(\d+\.\d+\.\d+(?:\.\d+)?(?:[-+][a-zA-Z0-9.-]+)?)$', base)`:
a dot with a non-empty name before it and a version match after it. -/
def goodSplit (l : List Char) (i : Nat) : Bool :=
  decide (1 ≤ i) && (l.get? i == some '.') && isVersionChars (l.drop (i + 1))

/-- The greedy name/version split of a bare nupkg base name: `(.+)` is greedy,
so the match uses the largest admissible boundary. -/
def nugetSplit (l : List Char) : Option (List Char × List Char) :=
  match findLargest (goodSplit l) l.length with
  | some i => some (l.take i, l.drop (i + 1))
  | none => none

/-- `$` or a literal dot next, for `(?:$|\.)`. -/
def dotOrEnd (r : List Char) : Bool :=
  r.isEmpty || r.head? == some '.'

/-- Match of `(\d+\.\d+\.\d+(?:\.\d+)?)(?:$|\.)` starting at the head,
returning the captured group (the version). -/
def fallbackCore (l : List Char) : Option (List Char) :=
  match takeNum l with
  | none => none
  | some (d1, r1) =>
    match r1 with
    | '.' :: s1 =>
      (match takeNum s1 with
       | none => none
       | some (d2, r2) =>
         match r2 with
         | '.' :: s2 =>
           (match takeNum s2 with
            | none => none
            | some (d3, r3) =>
              let noFourth : Option (List Char) :=
                if dotOrEnd r3 then some (d1 ++ '.' :: d2 ++ '.' :: d3) else none
              match r3 with
              | '.' :: s3 =>
                (match takeNum s3 with
                 | some (d4, r4) =>
                   if dotOrEnd r4 then some (d1 ++ '.' :: d2 ++ '.' :: d3 ++ '.' :: d4)
                   else noFourth
                 | none => noFourth)
              | _ => noFourth)
         | _ => none)
    | _ => none

/-- `re.search(r'\.(\d+\.\d+\.\d+(?:\.\d+)?)(?:$|\.)', base)` — leftmost dot
followed by a three-or-four component numeric version. -/
def nugetFallback (base : List Char) : Option (List Char) :=
  match findSmallest
      (fun i => (base.get? i == some '.') && (fallbackCore (base.drop (i + 1))).isSome)
      base.length with
  | some i => fallbackCore (base.drop (i + 1))
  | none => none

/-- Index of the last occurrence of ".tgz" in the character list. -/
def lastTgzIdx (f : List Char) : Option Nat :=
  findLargest (fun j => List.isPrefixOf (".tgz".data) (f.drop j)) f.length

/-- `re.search(f"{nm}-(.+)\\.tgz", fname)` with `nm` matched literally:
leftmost start of `nm-`, greedy group up to the last ".tgz". -/
def searchNameTgz (nm fname : String) : Option String :=
  match lastTgzIdx fname.data with
  | none => none
  | some j =>
    (match findSmallest
        (fun i => List.isPrefixOf (nm.data ++ [ '-' ]) (fname.data.drop i) &&
          decide (i + nm.data.length + 2 ≤ j))
        fname.data.length with
     | some i => some ⟨(fname.data.drop (i + nm.data.length + 1)).take (j - i - nm.data.length - 1)⟩
     | none => none)

/-- Index of the last '.' in the character list. -/
def lastDotIdx (f : List Char) : Option Nat :=
  findLargest (fun j => f.get? j == some '.') f.length

/-- `re.search(f"{aid}-(.+)\\.", fname)` with `aid` matched literally:
leftmost start of `aid-`, greedy group up to the last dot. -/
def searchNameDot (aid fname : String) : Option String :=
  match lastDotIdx fname.data with
  | none => none
  | some j =>
    (match findSmallest
        (fun i => List.isPrefixOf (aid.data ++ [ '-' ]) (fname.data.drop i) &&
          decide (i + aid.data.length + 2 ≤ j))
        fname.data.length with
     | some i => some ⟨(fname.data.drop (i + aid.data.length + 1)).take (j - i - aid.data.length - 1)⟩
     | none => none)

/-- `re.match(r'(.+?)-\d+', fname)`: lazy group, so the first hyphen (at
position at least 1) followed by a digit ends the group. -/
def pythonMatchLazy (fname : String) : Option String :=
  match findSmallest
      (fun j => decide (1 ≤ j) && (fname.data.get? j == some '-') &&
        ((fname.data.get? (j + 1)).any Char.isDigit))
      fname.data.length with
  | some j => some ⟨fname.data.take j⟩
  | none => none

/-- A character of the class `[.\w]` (ASCII). -/
def wordDot (c : Char) : Bool := c.isAlphanum || c = '_' || c = '.'

/-- `re.search(r'-(\d+[.\w]+)', fname)`: leftmost hyphen followed by a digit
and at least one more `[.\w]` character; the group is the maximal `[.\w]` run. -/
def pythonVersionSearch (fname : String) : Option String :=
  match findSmallest
      (fun i => (fname.data.get? i == some '-') && ((fname.data.get? (i + 1)).any Char.isDigit) &&
        ((fname.data.get? (i + 2)).any wordDot))
      fname.data.length with
  | some i => some ⟨(fname.data.drop (i + 1)).takeWhile wordDot⟩
  | none => none

/-- A character of the class `\w` (ASCII). -/
def wordChar (c : Char) : Bool := c.isAlphanum || c = '_'

/-- Match of `\d+\.\d+(\.\d+)?([.-]\w+)?` starting at the head. -/
def genFallbackAt (l : List Char) : Option (List Char) :=
  match takeNum l with
  | none => none
  | some (d1, r1) =>
    match r1 with
    | '.' :: s1 =>
      (match takeNum s1 with
       | none => none
       | some (d2, r2) =>
         let afterOpt : List Char × List Char :=
           match r2 with
           | '.' :: s2 =>
             (match takeNum s2 with
              | some (d3, r3) => (d1 ++ '.' :: d2 ++ '.' :: d3, r3)
              | none => (d1 ++ '.' :: d2, r2))
           | _ => (d1 ++ '.' :: d2, r2)
         match afterOpt.2 with
         | c :: s =>
           if c = '.' || c = '-' then
             (if (s.takeWhile wordChar).isEmpty then some afterOpt.1
              else some (afterOpt.1 ++ c :: s.takeWhile wordChar))
           else some afterOpt.1
         | [] => some afterOpt.1)
    | _ => none

/-- `re.search(r'(\d+\.\d+(\.\d+)?([.-]\w+)?)', path)`: leftmost match. -/
def genericVersionFallback (path : String) : Option String :=
  match findSmallest (fun i => (genFallbackAt (path.data.drop i)).isSome) path.data.length with
  | some i => (genFallbackAt (path.data.drop i)).map (fun g => (⟨g⟩ : String))
  | none => none

/-! ### The identity resolver (`ArtifactPackage`) -/

deriving instance DecidableEq for Except

/-- The resolved artifact identity (the fields of a Python `ArtifactPackage`). -/
structure ArtifactPackage where
  path : String
  package_type : String
  filename : String
  repo : Option String
  package_name : Option String
  version : Option String
deriving Repr, DecidableEq

/-- `ArtifactPackage._extract_repo`. -/
def extractRepo (p : String) : Option String :=
  if pyContainsChar p '/' then some ((pySplitChar p '/').getD 0 "") else none

/-- Maven branch of `_extract_package_name`. -/
def mavenName (path filename : String) : Option String :=
  let parts := pySplitChar path '/'
  if filename == "maven-metadata.xml" then
    if 3 ≤ parts.length then
      some (String.intercalate "."
          (if 3 < parts.length then pySlice parts 1 (parts.length - 2) else [parts.getD 1 ""]) ++
        ":" ++ parts.getD (parts.length - 2) "")
    else none
  else if 4 ≤ parts.length then
    let versionIndex := if filename ≠ "" && pyMemStr filename parts
      then parts.length - 2 else parts.length - 1
    some (String.intercalate "." (pySlice parts 1 (versionIndex - 1)) ++ ":" ++
      parts.getD (versionIndex - 1) "")
  else none

/-- npm branch of `_extract_package_name`. -/
def npmName (path : String) : Option String :=
  let parts := pySplitChar path '/'
  if 3 ≤ parts.length then
    if pyStartsWith (parts.getD 1 "") "@" then some (parts.getD 1 "" ++ "/" ++ parts.getD 2 "")
    else if parts.getLastD "" == "package.json" then some (parts.getD (parts.length - 2) "")
    else some (parts.getD 1 "")
  else none

/-- python branch of `_extract_package_name`. -/
def pythonName (path filename : String) : Option String :=
  let parts := pySplitChar path '/'
  if 3 ≤ parts.length then
    if filename ≠ "" then
      match pythonMatchLazy filename with
      | some g => some g
      | none => some (parts.getD 2 "")
    else some (parts.getD 2 "")
  else none

/-- nuget branch of `_extract_package_name`. -/
def nugetName (path filename : String) : Option String :=
  if pyContainsChar path '/' then
    (if 2 ≤ (pySplitChar path '/').length then some ((pySplitChar path '/').getD 1 "") else none)
  else if pyEndsWith filename ".nupkg" then
    (match nugetSplit (filename.data.take (filename.data.length - 6)) with
     | some pr => some ⟨pr.1⟩
     | none => none)
  else none

/-- terraform branch of `_extract_package_name`. -/
def terraformName (path : String) : Option String :=
  let parts := pySplitChar path '/'
  if 5 ≤ parts.length && parts.getD 1 "" == "modules" then
    some (parts.getD 2 "" ++ "/" ++ parts.getD 3 "")
  else none

/-- The generic fallback at the end of `_extract_package_name`. -/
def defaultNameFallback (path : String) : Option String :=
  let parts := pySplitChar path '/'
  if 2 ≤ parts.length then some (parts.getD 1 "") else none

/-- docker branch of `_extract_package_name` (falling through to the generic
fallback when `_uploads` appears before index 3). -/
def dockerName (path : String) : Option String :=
  let parts := pySplitChar path '/'
  if parts.length < 3 then none
  else
    match parts.findIdx? (fun x => x == "_uploads") with
    | some k =>
      if 3 ≤ k then some (parts.getD 1 "" ++ "/" ++ parts.getD 2 "")
      else defaultNameFallback path
    | none =>
      if 5 ≤ parts.length && pyContainsChar (parts.getD 3 "") '-' then
        some (parts.getD 1 "" ++ "/" ++ parts.getD 2 "")
      else if 4 ≤ parts.length && !(pyStartsWith (parts.getD 3 "") "_") then
        some (parts.getD 1 "" ++ "/" ++ parts.getD 2 "")
      else some (parts.getD 1 "" ++ "/" ++ parts.getD 2 "")

/-- `ArtifactPackage._extract_package_name`. -/
def extractPackageName (t p filename : String) : Option String :=
  if t == "maven" then mavenName p filename
  else if t == "npm" then npmName p
  else if t == "python" then pythonName p filename
  else if t == "nuget" then nugetName p filename
  else if t == "terraform" then terraformName p
  else if t == "docker" then dockerName p
  else defaultNameFallback p

/-- Maven branch of `_extract_version`. -/
def mavenVersion (path filename : String) (packageName : Option String) : Option String :=
  let parts := pySplitChar path '/'
  if 5 ≤ parts.length then some (parts.getD (parts.length - 2) "")
  else if filename ≠ "" then
    (if pyContainsChar filename '-' && pyContainsChar filename '.' then
      (match packageName with
       | some nm =>
         if (pySplitChar nm ':').getLastD "" ≠ "" then
           searchNameDot ((pySplitChar nm ':').getLastD "") filename
         else none
       | none => none)
    else none)
  else none

/-- npm branch of `_extract_version`; `parts[1]` raises `IndexError` when the
path has a single segment. -/
def npmVersion (path filename : String) (packageName : Option String) :
    Except String (Option String) :=
  let parts := pySplitChar path '/'
  let viaTgz : Option String :=
    if filename ≠ "" && pyEndsWith filename ".tgz" then
      (match packageName with
       | some nm =>
         let nm2 := if nm ≠ "" && pyContainsChar nm '/' then (pySplitChar nm '/').getLastD "" else nm
         if nm2 ≠ "" then searchNameTgz nm2 filename else none
       | none => none)
    else none
  match viaTgz with
  | some v => .ok (some v)
  | none =>
    match parts.get? 1 with
    | none => .error "IndexError"
    | some p1 =>
      if pyStartsWith p1 "@" && 4 ≤ parts.length then .ok (some (parts.getD 3 ""))
      else if 3 ≤ parts.length then .ok (some (parts.getD 2 ""))
      else .ok none

/-- python branch of `_extract_version`. -/
def pythonVersion (filename : String) : Option String :=
  if filename ≠ "" then pythonVersionSearch filename else none

/-- nuget branch of `_extract_version`. -/
def nugetVersion (path filename : String) (packageName : Option String) : Option String :=
  if pyContainsChar path '/' then
    (if 3 ≤ (pySplitChar path '/').length then some ((pySplitChar path '/').getD 2 "") else none)
  else if pyEndsWith filename ".nupkg" then
    let base := filename.data.take (filename.data.length - 6)
    let viaName : Option String :=
      match packageName with
      | some nm =>
        if nm ≠ "" then
          (if List.isPrefixOf (nm.data ++ [ '.' ]) base then some ⟨base.drop (nm.data.length + 1)⟩
           else none)
        else none
      | none => none
    match viaName with
    | some v => some v
    | none =>
      (match nugetFallback base with
       | some g => some ⟨g⟩
       | none => none)
  else none

/-- terraform branch of `_extract_version`. -/
def terraformVersion (path : String) : Option String :=
  let parts := pySplitChar path '/'
  if 5 ≤ parts.length then some (parts.getD 4 "") else none

/-- docker branch of `_extract_version`. -/
def dockerVersion (path : String) : Option String :=
  if pyMemStr "_uploads" (pySplitChar path '/') then some "latest"
  else if 4 ≤ (pySplitChar path '/').length &&
      !(pyStartsWith ((pySplitChar path '/').getD 3 "") "_") then
    some ((pySplitChar path '/').getD 3 "")
  else some "latest"

/-- `ArtifactPackage._extract_version`. -/
def extractVersion (t p filename : String) (packageName : Option String) :
    Except String (Option String) :=
  if t == "maven" && filename == "maven-metadata.xml" then .ok none
  else if t == "python" && (pyEndsWith filename ".html" || filename == "index.html") then .ok none
  else if t == "npm" && filename == "package.json" then .ok none
  else if t == "nuget" && filename == "index.json" then .ok none
  else if t == "maven" then .ok (mavenVersion p filename packageName)
  else if t == "npm" then npmVersion p filename packageName
  else if t == "python" then .ok (pythonVersion filename)
  else if t == "nuget" then .ok (nugetVersion p filename packageName)
  else if t == "terraform" then .ok (terraformVersion p)
  else if t == "docker" then .ok (dockerVersion p)
  else .ok (genericVersionFallback p)

/-- Assemble the identity once stripped path, type, filename and repo are known. -/
def mkFields (p t filename : String) (repo : Option String) : Except String ArtifactPackage :=
  match extractVersion t p filename (extractPackageName t p filename) with
  | .ok v => .ok { path := p, package_type := t, filename := filename, repo := repo,
                   package_name := extractPackageName t p filename, version := v }
  | .error e => .error e

/-- `ArtifactPackage.__init__` after the path/type normalisation: the nuget
bare-filename special case keeps the raw input as filename with no repo. -/
def mkWithMeta (p t path : String) : Except String ArtifactPackage :=
  if t == "nuget" && !(pyContainsChar path '/') && pyEndsWith path ".nupkg" then
    mkFields p t path none
  else
    mkFields p t (osBasename p) (extractRepo p)

/-- `ArtifactPackage(path, package_type)`; `Except.error` models an uncaught
Python exception escaping the constructor. -/
def mkArtifactPackage (path pkgType : String) : Except String ArtifactPackage :=
  mkWithMeta (pyStrip path) (pyLower (pyStrip pkgType)) path

/-! ### The existence checker (`ArtifactoryPackageChecker`) -/

/-- Outcome of one `session.head(url)` call: an HTTP status, or a raised
transport exception (caught by the surrounding `try`). -/
inductive ProbeOutcome where
  | status (code : Nat)
  | exn
deriving Repr, DecidableEq

/-- The result dictionary returned by `check_package_exists`. -/
structure CheckResult where
  path : String
  package_name : Option String
  package_type : String
  version : Option String
  found : Bool
  repository : Option String
  error : Option String
deriving Repr, DecidableEq

/-- The `is_metadata_file` test at the top of `check_package_exists`. -/
def isMetadataFile (pkg : ArtifactPackage) : Bool :=
  (pkg.package_type == "maven" && pkg.filename == "maven-metadata.xml") ||
  (pkg.package_type == "python" && pkg.filename == "index.html") ||
  (pkg.package_type == "npm" && pkg.filename == "package.json") ||
  (pkg.package_type == "nuget" && pkg.filename == "index.json")

/-- A found-result for a repository, with the version the code reports there. -/
def foundResult (pkg : ArtifactPackage) (repo : String) (ver : Option String) : CheckResult :=
  { path := pkg.path, package_name := pkg.package_name, package_type := pkg.package_type,
    version := ver, found := true, repository := some repo, error := none }

/-- The exhausted-candidates result at the end of `check_package_exists`. -/
def notFoundResult (pkg : ArtifactPackage) (repos : List String) : CheckResult :=
  { path := pkg.path, package_name := pkg.package_name, package_type := pkg.package_type,
    version := if isMetadataFile pkg then none else pkg.version,
    found := false, repository := none,
    error := some ("Package not found in repositories: " ++ String.intercalate ", " repos) }

/-- The metadata URL built for maven metadata files. -/
def mavenMetadataUrl (base repo gid aid : String) : String :=
  base ++ "/" ++ repo ++ "/" ++ replaceChar '.' '/' gid ++ "/" ++ aid ++ "/maven-metadata.xml"

/-- The `check_url` computed by the per-ecosystem `else` branch of the loop
body.  `Except.error` models the uncaught `TypeError` raised by `in` on a
`None` package name (maven, npm, terraform); `Except.ok s` is the value of the
`check_url` variable afterwards (unchanged when no branch assigns it). -/
def buildCheckUrl (base : String) (pkg : ArtifactPackage) (repo : String)
    (stale : Option String) : Except String (Option String) :=
  if pkg.package_type == "maven" then
    match pkg.package_name with
    | none => .error "TypeError"
    | some nm =>
      if pyContainsChar nm ':' then
        (if isMetadataFile pkg then
          .ok (some (mavenMetadataUrl base repo (splitOnce ':' nm).1 (splitOnce ':' nm).2))
        else
          .ok (some (base ++ "/" ++ repo ++ "/" ++ replaceChar '.' '/' (splitOnce ':' nm).1 ++
            "/" ++ (splitOnce ':' nm).2 ++ "/" ++ optStr pkg.version ++ "/" ++
            (splitOnce ':' nm).2 ++ "-" ++ optStr pkg.version ++ ".jar")))
      else .ok stale
  else if pkg.package_type == "npm" then
    match pkg.package_name with
    | none => .error "TypeError"
    | some nm =>
      if pyContainsChar nm '/' then
        .ok (some (base ++ "/" ++ repo ++ "/" ++ pyQuote nm ++ "/" ++ optStr pkg.version))
      else .ok (some (base ++ "/" ++ repo ++ "/" ++ nm ++ "/" ++ optStr pkg.version))
  else if pkg.package_type == "python" then
    .ok (some (base ++ "/" ++ repo ++ "/simple/" ++ optStr pkg.package_name))
  else if pkg.package_type == "nuget" then
    .ok (some (base ++ "/" ++ repo ++ "/" ++ optStr pkg.package_name ++ "/" ++ optStr pkg.version))
  else if pkg.package_type == "terraform" then
    match pkg.package_name with
    | none => .error "TypeError"
    | some nm =>
      if pyContainsChar nm '/' then
        .ok (some (base ++ "/" ++ repo ++ "/modules/" ++ (splitOnce '/' nm).1 ++ "/" ++
          (splitOnce '/' nm).2 ++ "/" ++ optStr pkg.version))
      else .ok (some (base ++ "/" ++ repo ++ "/modules/" ++ nm ++ "/" ++ optStr pkg.version))
  else if pkg.package_type == "docker" then
    .ok (some (base ++ "/" ++ repo ++ "/" ++ optStr pkg.package_name ++ "/manifests/" ++
      optStr pkg.version))
  else .ok stale

/-- Control flow after one repository iteration of the candidate loop. -/
inductive StepRes where
  | found (res : CheckResult)
  | raise (e : String)
  | next (stale : Option String)
deriving Repr, DecidableEq

/-- The probe of `check_url` at the end of the loop body (after the branch
chain): `session.head(None)` raises before any HTTP traffic, so a `none` URL
adds nothing to the probe trace and the `except` clause continues the loop. -/
def probeFinal (hd : String → ProbeOutcome) (pkg : ArtifactPackage) (repo : String)
    (pre : List String) (checkUrl : Option String) : List String × StepRes :=
  match checkUrl with
  | none => (pre, .next none)
  | some u =>
    match hd u with
    | .exn => (pre ++ [u], .next (some u))
    | .status c =>
      if c = 200 then (pre ++ [u], .found (foundResult pkg repo pkg.version))
      else (pre ++ [u], .next (some u))

/-- One iteration of the candidate-repository loop of `check_package_exists`:
returns the URLs probed for this repository (in order) and the control flow.
A non-200 status in the metadata or direct-path branch falls through to the
final probe of the same `check_url`, exactly as in the source. -/
def stepRepo (hd : String → ProbeOutcome) (base : String) (pkg : ArtifactPackage)
    (stale : Option String) (repo : String) : List String × StepRes :=
  if isMetadataFile pkg && pkg.package_type == "maven" then
    match pkg.package_name with
    | none => ([], .raise "TypeError")
    | some nm =>
      if pyContainsChar nm ':' then
        match hd (mavenMetadataUrl base repo (splitOnce ':' nm).1 (splitOnce ':' nm).2) with
        | .exn =>
          ([mavenMetadataUrl base repo (splitOnce ':' nm).1 (splitOnce ':' nm).2],
            .next (some (mavenMetadataUrl base repo (splitOnce ':' nm).1 (splitOnce ':' nm).2)))
        | .status c =>
          if c = 200 then
            ([mavenMetadataUrl base repo (splitOnce ':' nm).1 (splitOnce ':' nm).2],
              .found (foundResult pkg repo none))
          else
            probeFinal hd pkg repo
              [mavenMetadataUrl base repo (splitOnce ':' nm).1 (splitOnce ':' nm).2]
              (some (mavenMetadataUrl base repo (splitOnce ':' nm).1 (splitOnce ':' nm).2))
      else probeFinal hd pkg repo [] stale
  else if pyStartsWith pkg.path (repo ++ "/") then
    match hd (base ++ "/" ++ pkg.path) with
    | .exn => ([base ++ "/" ++ pkg.path], .next (some (base ++ "/" ++ pkg.path)))
    | .status c =>
      if c = 200 then ([base ++ "/" ++ pkg.path], .found (foundResult pkg repo pkg.version))
      else probeFinal hd pkg repo [base ++ "/" ++ pkg.path] (some (base ++ "/" ++ pkg.path))
  else
    match buildCheckUrl base pkg repo stale with
    | .error e => ([], .raise e)
    | .ok cu => probeFinal hd pkg repo [] cu

/-- The candidate loop: returns the probe trace (repository, URL) in order and
either a found result, an uncaught exception, or `none` when exhausted. -/
def checkLoop (hd : String → ProbeOutcome) (base : String) (pkg : ArtifactPackage) :
    List String → Option String → List (String × String) × Except String (Option CheckResult)
  | [], _ => ([], .ok none)
  | repo :: rest, stale =>
    match stepRepo hd base pkg stale repo with
    | (urls, .found res) => (urls.map (fun u => (repo, u)), .ok (some res))
    | (urls, .raise e) => (urls.map (fun u => (repo, u)), .error e)
    | (urls, .next st) =>
      ((urls.map (fun u => (repo, u))) ++ (checkLoop hd base pkg rest st).1,
        (checkLoop hd base pkg rest st).2)

/-- The `repos_to_check` list: the original repository first (when truthy),
then the mapped repositories of the package type that differ from it. -/
def reposToCheck (orig : Option String) (cands : List String) : List String :=
  (match orig with
   | some r => if r = "" then [] else [r]
   | none => []) ++
  cands.filter (fun x =>
    match orig with
    | some r => x != r
    | none => true)

/-- `check_package_exists`: the probe trace and the outcome (`Except.error`
models an exception escaping the method). -/
def checkPackageExists (hd : String → ProbeOutcome) (base : String)
    (mappings : String → List String) (pkg : ArtifactPackage) :
    List (String × String) × Except String CheckResult :=
  match checkLoop hd base pkg (reposToCheck pkg.repo (mappings pkg.package_type)) none with
  | (tr, .ok (some res)) => (tr, .ok res)
  | (tr, .ok none) => (tr, .ok (notFoundResult pkg (reposToCheck pkg.repo (mappings pkg.package_type))))
  | (tr, .error e) => (tr, .error e)

/-- The per-task result collection of `process_package_list`: a task whose
verifier raises is converted into a not-found result carrying the message. -/
def taskResult (hd : String → ProbeOutcome) (base : String)
    (mappings : String → List String) (pkg : ArtifactPackage) : CheckResult :=
  match (checkPackageExists hd base mappings pkg).2 with
  | .ok r => r
  | .error e =>
    { path := pkg.path, package_name := pkg.package_name, package_type := pkg.package_type,
      version := pkg.version, found := false, repository := none, error := some e }

/-- The batch phase of `process_package_list`: one result per submitted
package (the thread pool completes every future; output order is not part of
the contract and is modelled as submission order). -/
def processPackages (hd : String → ProbeOutcome) (base : String)
    (mappings : String → List String) (pkgs : List ArtifactPackage) : List CheckResult :=
  pkgs.map (taskResult hd base mappings)

/-! ### The repository catalog (`DEFAULT_REPO_MAPPINGS` and
`update_repository_mappings`) -/

/-- `DEFAULT_REPO_MAPPINGS`, as the lookup `self.repo_mappings.get(t, [])`. -/
def defaultRepoMappings : String → List String := fun t =>
  if t = "python" then ["pypi-local", "pypi-remote", "pypi-virtual"]
  else if t = "npm" then ["npm-local", "npm-remote", "npm-virtual"]
  else if t = "maven" then ["maven-local", "maven-remote", "maven-virtual"]
  else if t = "nuget" then ["nuget-local", "nuget-remote", "nuget-virtual"]
  else if t = "terraform" then ["terraform-local", "terraform-remote", "terraform-virtual"]
  else if t = "docker" then ["docker-local", "docker-remote", "docker-virtual"]
  else []

/-- The package-type translation inside `update_repository_mappings`. -/
def matchingTypeFor (pkgType : String) : Option String :=
  if pkgType = "python" then some "pypi"
  else if pkgType = "npm" then some "npm"
  else if pkgType = "maven" then some "maven"
  else if pkgType = "nuget" then some "nuget"
  else if pkgType = "terraform" then some "terraform"
  else if pkgType = "docker" then some "docker"
  else none

/-- `repos_by_type[t]`: the live repositories of reported type `t`, in listing
order (the live catalog is a dict keyed by repository name). -/
def reposByType (available : List (String × String)) (t : String) : List String :=
  (available.filter (fun kv => kv.2 == t)).map Prod.fst

/-- `r in available_repos`: key membership in the live catalog. -/
def availHasKey (available : List (String × String)) (r : String) : Bool :=
  available.any (fun kv => kv.1 == r)

/-- The update of one ecosystem's candidate list by
`update_repository_mappings` given the live catalog. -/
def updateMapping (pkgType : String) (current : List String)
    (available : List (String × String)) : List String :=
  match matchingTypeFor pkgType with
  | none => current
  | some mt =>
    if (reposByType available mt).isEmpty then current
    else
      if (current.filter (fun r => availHasKey available r)).isEmpty then reposByType available mt
      else current.filter (fun r => availHasKey available r)

/-! ### Concrete fixtures used by witnesses and counterexamples -/

/-- A probe oracle where every HEAD request misses with status 404. -/
def allMiss : String → ProbeOutcome := fun _ => ProbeOutcome.status 404

/-- The base URL used in the concrete scenarios. -/
def artBase : String := "https://repo.example"

/-- The unresolved identity produced by the bare nuget input "x". -/
def pkgX : ArtifactPackage :=
  { path := "x", package_type := "nuget", filename := "x", repo := none,
    package_name := none, version := none }

/-- An oracle where only the nuget-remote candidate URL for `pkgX` succeeds. -/
def hitRemote : String → ProbeOutcome := fun u =>
  if u = "https://repo.example/nuget-remote/None/None" then ProbeOutcome.status 200
  else ProbeOutcome.status 404

/-- The identity resolved from the maven input "q/w": too short to resolve, so
name and version are absent and its verification raises in the URL builder. -/
def pkgQW : ArtifactPackage :=
  { path := "q/w", package_type := "maven", filename := "w", repo := some "q",
    package_name := none, version := none }

/-- The identity resolved from the bare nuget filename
"microsoft.graph.authentication.2.22.0.nupkg". -/
def msgraphPkg : ArtifactPackage :=
  { path := "microsoft.graph.authentication.2.22.0.nupkg", package_type := "nuget",
    filename := "microsoft.graph.authentication.2.22.0.nupkg", repo := none,
    package_name := some "microsoft.graph.authentication", version := some "2.22.0" }

/-- The identity resolved from "newtonsoft.json.13.0.nupkg": the trailing
version has only two numeric components, so the split fails. -/
def newtonsoftPkg : ArtifactPackage :=
  { path := "newtonsoft.json.13.0.nupkg", package_type := "nuget",
    filename := "newtonsoft.json.13.0.nupkg", repo := none,
    package_name := none, version := none }

/-- The identity resolved from "psscriptanalyzer.1.17.1.nupkg". -/
def psscriptPkg : ArtifactPackage :=
  { path := "psscriptanalyzer.1.17.1.nupkg", package_type := "nuget",
    filename := "psscriptanalyzer.1.17.1.nupkg", repo := none,
    package_name := some "psscriptanalyzer", version := some "1.17.1" }

/-- The identity resolved from the docker path ending in a digest-named file. -/
def dockerShaPkg : ArtifactPackage :=
  { path := "docker/bitnami/cert-manager/1.17.1-debian-12-r4/sha256abc123def456.json",
    package_type := "docker", filename := "sha256abc123def456.json", repo := some "docker",
    package_name := some "bitnami/cert-manager", version := some "1.17.1-debian-12-r4" }

/-- The same docker path with a different final filename segment. -/
def dockerManifestPkg : ArtifactPackage :=
  { path := "docker/bitnami/cert-manager/1.17.1-debian-12-r4/manifest.json",
    package_type := "docker", filename := "manifest.json", repo := some "docker",
    package_name := some "bitnami/cert-manager", version := some "1.17.1-debian-12-r4" }

/-! ### List and string lemmas -/

theorem mem_of_mem_dropWhile {α : Type} (p : α → Bool) (l : List α) (a : α)
    (h : a ∈ l.dropWhile p) : a ∈ l := by
  induction l with
  | nil => simp at h
  | cons x xs ih =>
    by_cases hx : p x
    · rw [List.dropWhile_cons, if_pos hx] at h
      exact List.mem_cons_of_mem x (ih h)
    · rw [List.dropWhile_cons, if_neg hx] at h
      exact h

theorem pyContainsChar_eq_false_iff (s : String) (c : Char) :
    pyContainsChar s c = false ↔ ∀ x ∈ s.data, x ≠ c := by
  simp [pyContainsChar]

theorem mem_strip (s : String) (x : Char) (h : x ∈ (pyStrip s).data) : x ∈ s.data := by
  have h1 : x ∈ (s.data.dropWhile pyIsSpace).reverse.dropWhile pyIsSpace := by
    simpa [pyStrip, List.mem_reverse] using h
  have h2 := mem_of_mem_dropWhile _ _ _ h1
  rw [List.mem_reverse] at h2
  exact mem_of_mem_dropWhile _ _ _ h2

theorem pyContainsChar_strip (s : String) (c : Char) (h : pyContainsChar s c = false) :
    pyContainsChar (pyStrip s) c = false := by
  rw [pyContainsChar_eq_false_iff] at h ⊢
  exact fun x hx => h x (mem_strip s x hx)

theorem splitCharAux_no_sep (sep : Char) (l : List Char) (h : ∀ c ∈ l, c ≠ sep) :
    splitCharAux sep l = [l] := by
  induction l with
  | nil => rfl
  | cons c cs ih =>
    have hc : c ≠ sep := h c (List.mem_cons_self c cs)
    have ihh := ih (fun x hx => h x (List.mem_cons_of_mem c hx))
    simp [splitCharAux, ihh, hc]

theorem pySplitChar_no_sep (s : String) (c : Char) (h : pyContainsChar s c = false) :
    pySplitChar s c = [s] := by
  have hmem := (pyContainsChar_eq_false_iff s c).mp h
  simp [pySplitChar, splitCharAux_no_sep c s.data hmem]

theorem getq_append_len {α : Type} (a : List α) (x : α) (b : List α) :
    (a ++ x :: b).get? a.length = some x := by
  induction a with
  | nil => rfl
  | cons y ys ih => simpa using ih

theorem drop_append_len {α : Type} (a : List α) (x : α) (b : List α) :
    (a ++ x :: b).drop (a.length + 1) = b := by
  induction a with
  | nil => rfl
  | cons y ys ih => simp [ih]

theorem take_append_len {α : Type} (a : List α) (x : α) (b : List α) :
    (a ++ x :: b).take a.length = a := by
  induction a with
  | nil => rfl
  | cons y ys ih => simp [ih]

theorem getq_append_lt {α : Type} (a b : List α) (i : Nat) (h : i < a.length) :
    (a ++ b).get? i = a.get? i := by
  induction a generalizing i with
  | nil => simp at h
  | cons y ys ih =>
    cases i with
    | zero => rfl
    | succ j => simpa using ih j (by simpa using h)

theorem getq_eq_some_getD {α : Type} (l : List α) (i : Nat) (d : α) (h : i < l.length) :
    l.get? i = some (l.getD i d) := by
  induction l generalizing i with
  | nil => simp at h
  | cons y ys ih =>
    cases i with
    | zero => rfl
    | succ j => simpa [List.getD] using ih j (by simpa using h)

theorem findLargest_eq_some (p : Nat → Bool) (n i : Nat) (h : findLargest p n = some i) :
    p i = true ∧ i < n ∧ ∀ j, j < n → p j = true → j ≤ i := by
  induction n with
  | zero => simp [findLargest] at h
  | succ m ih =>
    rw [findLargest] at h
    by_cases hp : p m
    · rw [if_pos hp] at h
      cases h
      exact ⟨hp, Nat.lt_succ_self i, fun j hj _ => Nat.lt_succ_iff.mp hj⟩
    · rw [if_neg hp] at h
      obtain ⟨h1, h2, h3⟩ := ih h
      refine ⟨h1, Nat.lt_succ_of_lt h2, fun j hj hpj => ?_⟩
      rcases Nat.lt_succ_iff_lt_or_eq.mp hj with hj2 | hj2
      · exact h3 j hj2 hpj
      · subst hj2
        exact absurd hpj (by simpa using hp)

theorem findLargest_eq_none (p : Nat → Bool) (n : Nat) (h : findLargest p n = none) :
    ∀ j, j < n → p j = false := by
  induction n with
  | zero => exact fun j hj => absurd hj (Nat.not_lt_zero j)
  | succ m ih =>
    rw [findLargest] at h
    by_cases hp : p m
    · rw [if_pos hp] at h
      cases h
    · rw [if_neg hp] at h
      intro j hj
      rcases Nat.lt_succ_iff_lt_or_eq.mp hj with hj2 | hj2
      · exact ih h j hj2
      · subst hj2
        simpa using hp

theorem takeNum_eq_some (l d r : List Char) (h : takeNum l = some (d, r)) :
    l = d ++ r ∧ d ≠ [] ∧ d.all Char.isDigit = true := by
  cases l with
  | nil => simp [takeNum] at h
  | cons c cs =>
    rw [takeNum] at h
    by_cases hc : c.isDigit
    · rw [if_pos hc] at h
      simp only [Option.some.injEq, Prod.mk.injEq] at h
      obtain ⟨hd, hr⟩ := h
      subst hd
      subst hr
      refine ⟨by simp [List.takeWhile_append_dropWhile], by simp, ?_⟩
      simp only [List.all_cons, hc, Bool.true_and, List.all_eq_true]
      exact fun x hx => List.mem_takeWhile_imp hx
    · rw [if_neg hc] at h
      cases h

theorem dropNum_eq_some (l r : List Char) (h : dropNum l = some r) :
    ∃ d, l = d ++ r ∧ d ≠ [] ∧ d.all Char.isDigit = true := by
  unfold dropNum at h
  cases ht : takeNum l with
  | none => rw [ht] at h; cases h
  | some pr =>
    rw [ht] at h
    simp only [Option.map_some'] at h
    have h2 := Option.some.inj h
    obtain ⟨hl, hd, hall⟩ := takeNum_eq_some l pr.1 pr.2 (by rw [ht])
    exact ⟨pr.1, by rw [hl, h2], hd, hall⟩

theorem nugetSplit_eq_some (l n v : List Char) (h : nugetSplit l = some (n, v)) :
    l = n ++ '.' :: v ∧ n ≠ [] ∧ isVersionChars v = true ∧
      ∀ n2 v2 : List Char, l = n2 ++ '.' :: v2 → n2 ≠ [] → isVersionChars v2 = true →
        n2.length ≤ n.length := by
  unfold nugetSplit at h
  cases hf : findLargest (goodSplit l) l.length with
  | none => rw [hf] at h; cases h
  | some i =>
    rw [hf] at h
    simp only [Option.some.injEq, Prod.mk.injEq] at h
    obtain ⟨hn, hv⟩ := h
    obtain ⟨hp, hlt, hmax⟩ := findLargest_eq_some _ _ _ hf
    simp only [goodSplit, Bool.and_eq_true, decide_eq_true_eq, beq_iff_eq] at hp
    obtain ⟨⟨h1i, hgi⟩, hvi⟩ := hp
    have hilt : i < l.length := by
      by_contra hcon
      rw [List.get?_eq_none.mpr (Nat.le_of_not_lt hcon)] at hgi
      cases hgi
    have hdec : l = l.take i ++ '.' :: l.drop (i + 1) := by
      have hdrop : l.drop i = '.' :: l.drop (i + 1) := by
        rw [List.drop_eq_getElem_cons hilt]
        have hli : l[i] = '.' := by
          have h5 := hgi
          rw [List.get?_eq_get hilt] at h5
          simpa using h5
        rw [hli]
      calc l = l.take i ++ l.drop i := (List.take_append_drop i l).symm
        _ = l.take i ++ '.' :: l.drop (i + 1) := by rw [hdrop]
    have hnlen : n.length = i := by
      rw [← hn, List.length_take]
      exact Nat.min_eq_left (Nat.le_of_lt hilt)
    refine ⟨by rw [← hn, ← hv]; exact hdec, ?_, by rw [← hv]; exact hvi, ?_⟩
    · rw [← hn]
      intro hcon
      have := congrArg List.length hcon
      rw [List.length_take, Nat.min_eq_left (Nat.le_of_lt hilt)] at this
      simp at this
      omega
    · intro n2 v2 hl2 hn2 hv2
      have hj : goodSplit l n2.length = true := by
        simp only [goodSplit, Bool.and_eq_true, decide_eq_true_eq, beq_iff_eq]
        refine ⟨⟨?_, ?_⟩, ?_⟩
        · have := List.length_pos.mpr hn2
          omega
        · rw [hl2]; exact getq_append_len n2 '.' v2
        · rw [hl2, drop_append_len]; exact hv2
      have hjlt : n2.length < l.length := by
        rw [hl2, List.length_append, List.length_cons]
        omega
      have := hmax n2.length hjlt hj
      omega

theorem isVersionChars_components (v : List Char) (h : isVersionChars v = true) :
    ∃ a b c r : List Char, v = a ++ '.' :: (b ++ '.' :: (c ++ r)) ∧
      a ≠ [] ∧ b ≠ [] ∧ c ≠ [] ∧
      a.all Char.isDigit = true ∧ b.all Char.isDigit = true ∧ c.all Char.isDigit = true := by
  unfold isVersionChars at h
  split at h
  · cases h
  · rename_i r1 h1
    split at h
    · rename_i s1
      split at h
      · cases h
      · rename_i r2 h2
        split at h
        · rename_i s2
          split at h
          · cases h
          · rename_i r3 h3
            obtain ⟨a, hva, ha, haall⟩ := dropNum_eq_some v _ h1
            obtain ⟨b, hsb, hb, hball⟩ := dropNum_eq_some s1 _ h2
            obtain ⟨c, hsc, hc2, hcall⟩ := dropNum_eq_some s2 _ h3
            exact ⟨a, b, c, r3, by rw [hva, hsb, hsc], ha, hb, hc2, haall, hball, hcall⟩
        · cases h
    · cases h

/-! ### Resolver characterization lemmas -/

theorem extractPackageName_nuget (p f : String) :
    extractPackageName "nuget" p f = nugetName p f := rfl

theorem extractPackageName_npm (p f : String) :
    extractPackageName "npm" p f = npmName p := rfl

theorem extractVersion_nuget (p f : String) (nm : Option String) :
    extractVersion "nuget" p f nm =
      (if f == "index.json" then Except.ok none else Except.ok (nugetVersion p f nm)) := rfl

theorem extractVersion_npm (p f : String) (nm : Option String) :
    extractVersion "npm" p f nm =
      (if f == "package.json" then Except.ok none else npmVersion p f nm) := rfl

theorem extractVersion_docker (p f : String) (nm : Option String) :
    extractVersion "docker" p f nm = Except.ok (dockerVersion p) := rfl

theorem mk_docker (s : String) :
    mkArtifactPackage s "docker" = Except.ok
      { path := pyStrip s, package_type := "docker", filename := osBasename (pyStrip s),
        repo := extractRepo (pyStrip s),
        package_name := extractPackageName "docker" (pyStrip s) (osBasename (pyStrip s)),
        version := dockerVersion (pyStrip s) } := rfl

theorem mk_nuget_bare (s : String) (hs : pyContainsChar s '/' = false)
    (hn : pyEndsWith s ".nupkg" = true) :
    mkArtifactPackage s "nuget" = Except.ok
      { path := pyStrip s, package_type := "nuget", filename := s, repo := none,
        package_name := nugetName (pyStrip s) s,
        version := nugetVersion (pyStrip s) s (nugetName (pyStrip s) s) } := by
  have hne : (s == "index.json") = false := by
    rw [beq_eq_false_iff_ne]
    intro he
    rw [he] at hn
    exact absurd hn (by decide)
  unfold mkArtifactPackage mkWithMeta
  have hl : pyLower (pyStrip "nuget") = "nuget" := rfl
  rw [hl, hs, hn]
  simp only [beq_self_eq_true, Bool.not_false, Bool.and_true, Bool.true_and, if_true]
  unfold mkFields
  rw [extractPackageName_nuget, extractVersion_nuget, hne]
  rfl

theorem nugetName_bare (p f : String) (hp : pyContainsChar p '/' = false)
    (hf : pyEndsWith f ".nupkg" = true) :
    nugetName p f =
      (match nugetSplit (f.data.take (f.data.length - 6)) with
       | some pr => some ((⟨pr.1⟩ : String))
       | none => none) := by
  unfold nugetName
  rw [hp, hf]
  rfl

theorem nugetVersion_bare (p f : String) (nm : Option String)
    (hp : pyContainsChar p '/' = false) (hf : pyEndsWith f ".nupkg" = true) :
    nugetVersion p f nm =
      (match (match nm with
              | some nm2 =>
                if nm2 ≠ "" then
                  (if List.isPrefixOf (nm2.data ++ [ '.' ]) (f.data.take (f.data.length - 6))
                   then some ((⟨(f.data.take (f.data.length - 6)).drop (nm2.data.length + 1)⟩ : String))
                   else none)
                else none
              | none => none) with
       | some v => some v
       | none =>
         (match nugetFallback (f.data.take (f.data.length - 6)) with
          | some g => some ((⟨g⟩ : String))
          | none => none)) := by
  unfold nugetVersion
  rw [hp, hf]
  rfl

theorem nugetVersion_bare_some (p f : String) (n0 v0 : List Char)
    (hp : pyContainsChar p '/' = false) (hf : pyEndsWith f ".nupkg" = true)
    (hsplit : f.data.take (f.data.length - 6) = n0 ++ '.' :: v0) (hn0 : n0 ≠ []) :
    nugetVersion p f (some ((⟨n0⟩ : String))) = some ((⟨v0⟩ : String)) := by
  have hne : ((⟨n0⟩ : String)) ≠ "" := by
    intro hcon
    exact hn0 (congrArg String.data hcon)
  have hpref : List.isPrefixOf (n0 ++ [ '.' ]) (f.data.take (f.data.length - 6)) = true := by
    rw [hsplit, List.isPrefixOf_iff_prefix]
    exact ⟨v0, by simp⟩
  rw [nugetVersion_bare p f _ hp hf]
  show (match (if ((⟨n0⟩ : String)) ≠ "" then
          (if List.isPrefixOf (n0 ++ [ '.' ]) (f.data.take (f.data.length - 6))
           then some ((⟨(f.data.take (f.data.length - 6)).drop (n0.length + 1)⟩ : String))
           else none)
          else none) with
        | some v => some v
        | none =>
          (match nugetFallback (f.data.take (f.data.length - 6)) with
           | some g => some ((⟨g⟩ : String))
           | none => none)) = some ((⟨v0⟩ : String))
  rw [if_pos hne, if_pos hpref]
  show some ((⟨(f.data.take (f.data.length - 6)).drop (n0.length + 1)⟩ : String)) = _
  rw [hsplit, drop_append_len]

theorem mk_nuget_bare_name_cases (s : String) (pkg : ArtifactPackage)
    (hok : mkArtifactPackage s "nuget" = Except.ok pkg)
    (hs : pyContainsChar s '/' = false) (hn : pyEndsWith s ".nupkg" = true) :
    pkg.package_name =
      (match nugetSplit (s.data.take (s.data.length - 6)) with
       | some pr => some ((⟨pr.1⟩ : String))
       | none => none) ∧
    (∀ n0 v0 : List Char, nugetSplit (s.data.take (s.data.length - 6)) = some (n0, v0) →
      pkg.version = some ((⟨v0⟩ : String))) := by
  rw [mk_nuget_bare s hs hn] at hok
  have hpkg := Except.ok.inj hok
  subst hpkg
  have hps := pyContainsChar_strip s '/' hs
  constructor
  · exact nugetName_bare (pyStrip s) s hps hn
  · intro n0 v0 hsp
    obtain ⟨hl, hne0, _, _⟩ := nugetSplit_eq_some _ n0 v0 hsp
    show nugetVersion (pyStrip s) s (nugetName (pyStrip s) s) = _
    rw [nugetName_bare (pyStrip s) s hps hn, hsp]
    exact nugetVersion_bare_some (pyStrip s) s n0 v0 hps hn hl hne0

theorem splitCharAux_ne_nil (sep : Char) (l : List Char) : splitCharAux sep l ≠ [] := by
  induction l with
  | nil => simp [splitCharAux]
  | cons c cs ih =>
    rw [splitCharAux]
    cases hs : splitCharAux sep cs with
    | nil => simp
    | cons h t => by_cases hc : c = sep <;> simp [hc]

theorem pySplitChar_ne_nil (s : String) (c : Char) : pySplitChar s c ≠ [] := by
  unfold pySplitChar
  intro h
  exact splitCharAux_ne_nil c s.data (List.map_eq_nil_iff.mp h)

theorem getD_append_lt {α : Type} (a b : List α) (i : Nat) (d : α) (h : i < a.length) :
    (a ++ b).getD i d = a.getD i d := by
  induction a generalizing i with
  | nil => simp at h
  | cons y ys ih =>
    cases i with
    | zero => rfl
    | succ j => exact ih j (Nat.lt_of_succ_lt_succ h)

theorem pyMemStr_append_single (x z : String) (a : List String) (hz : z ≠ x) :
    pyMemStr x (a ++ [z]) = pyMemStr x a := by
  unfold pyMemStr
  rw [List.any_append]
  simp [beq_eq_false_iff_ne.mpr hz]

theorem dockerVersion_shape (p : String) :
    dockerVersion p = some "latest" ∨ dockerVersion p = (pySplitChar p '/').get? 3 := by
  unfold dockerVersion
  by_cases hm : pyMemStr "_uploads" (pySplitChar p '/') = true
  · left
    rw [if_pos hm]
  · rw [if_neg hm]
    by_cases hc : (decide (4 ≤ (pySplitChar p '/').length) &&
        !(pyStartsWith ((pySplitChar p '/').getD 3 "") "_")) = true
    · right
      rw [if_pos hc]
      have h4 : 4 ≤ (pySplitChar p '/').length := by
        have h5 := hc
        rw [Bool.and_eq_true] at h5
        exact of_decide_eq_true h5.1
      rw [getq_eq_some_getD _ 3 "" (by omega)]
    · left
      rw [if_neg hc]

theorem dockerVersion_ignores_filename (p1 p2 : String)
    (hdp : (pySplitChar p1 '/').dropLast = (pySplitChar p2 '/').dropLast)
    (hlen : 5 ≤ (pySplitChar p1 '/').length)
    (hl1 : (pySplitChar p1 '/').getLast? ≠ some "_uploads")
    (hl2 : (pySplitChar p2 '/').getLast? ≠ some "_uploads") :
    dockerVersion p1 = dockerVersion p2 := by
  have hne1 := pySplitChar_ne_nil p1 '/'
  have hne2 := pySplitChar_ne_nil p2 '/'
  have hx : pySplitChar p1 '/' = (pySplitChar p1 '/').dropLast ++ [(pySplitChar p1 '/').getLast hne1] :=
    (List.dropLast_append_getLast hne1).symm
  have hy : pySplitChar p2 '/' = (pySplitChar p1 '/').dropLast ++ [(pySplitChar p2 '/').getLast hne2] := by
    rw [hdp]
    exact (List.dropLast_append_getLast hne2).symm
  have hxu : (pySplitChar p1 '/').getLast hne1 ≠ "_uploads" := by
    intro hcon
    apply hl1
    rw [List.getLast?_eq_getLast _ hne1, hcon]
  have hyu : (pySplitChar p2 '/').getLast hne2 ≠ "_uploads" := by
    intro hcon
    apply hl2
    rw [List.getLast?_eq_getLast _ hne2, hcon]
  have hal : 3 < (pySplitChar p1 '/').dropLast.length := by
    rw [List.length_dropLast]
    omega
  unfold dockerVersion
  rw [hx, hy]
  rw [pyMemStr_append_single _ _ _ hxu, pyMemStr_append_single _ _ _ hyu]
  rw [getD_append_lt _ _ 3 "" hal, getD_append_lt _ _ 3 "" hal]
  rw [List.length_append, List.length_append]
  simp only [List.length_singleton]

theorem npmVersion_none_bare (p : String) (hsp : pySplitChar p '/' = [p]) :
    npmVersion p p none = Except.error "IndexError" := by
  unfold npmVersion
  rw [hsp]
  split <;> rfl

/-- Claim C2 (amended): `ArtifactPackage` construction does not always absorb
malformed input — for the npm ecosystem, any input without a path separator
whose stripped value is not "package.json" raises IndexError (from `parts[1]`
in `_extract_version`) instead of yielding an unresolved identity. -/
theorem c2_amended_npm_bare_raises (s : String) (hs : pyContainsChar s '/' = false)
    (hp : pyStrip s ≠ "package.json") :
    mkArtifactPackage s "npm" = Except.error "IndexError" := by
  have hps := pyContainsChar_strip s '/' hs
  have hsp : pySplitChar (pyStrip s) '/' = [pyStrip s] := pySplitChar_no_sep (pyStrip s) '/' hps
  have hbase : osBasename (pyStrip s) = pyStrip s := by
    unfold osBasename
    rw [hsp]
    rfl
  unfold mkArtifactPackage
  show mkWithMeta (pyStrip s) (pyLower (pyStrip "npm")) s = _
  show mkFields (pyStrip s) "npm" (osBasename (pyStrip s)) (extractRepo (pyStrip s)) = _
  rw [hbase]
  unfold mkFields
  rw [extractPackageName_npm]
  have hname : npmName (pyStrip s) = none := by
    unfold npmName
    rw [hsp]
    rfl
  rw [hname, extractVersion_npm]
  have hpjs : ((pyStrip s) == "package.json") = false := by
    rw [beq_eq_false_iff_ne]
    exact hp
  rw [hpjs, npmVersion_none_bare (pyStrip s) hsp]
  rfl

/-- Claim C2 counterexample: the npm input "foo" raises IndexError, so
construction does not tolerate every malformed input. -/
theorem c2_counterexample_npm_foo :
    mkArtifactPackage "foo" "npm" = Except.error "IndexError" := by decide

/-- Witness for the amended C2 theorem at the concrete input "foo". -/
theorem c2_witness_npm_foo :
    pyContainsChar "foo" '/' = false ∧ pyStrip "foo" ≠ "package.json" ∧
    mkArtifactPackage "foo" "npm" = Except.error "IndexError" :=
  ⟨by decide, by decide, c2_amended_npm_bare_raises "foo" (by decide) (by decide)⟩

/-- Claim C6: for every bare nuget filename (no path separator, ending in
".nupkg") whose package name resolves, the name/version split is greedy
toward the name: the base name (extension removed) splits as
name ++ "." ++ version with the version matching the semantic-version
pattern, and any other such split has a name no longer than the resolved
name.  The claim's concrete example is checked in the witness. -/
theorem c6_nuget_bare_greedy (s : String) (pkg : ArtifactPackage) (n : String)
    (hok : mkArtifactPackage s "nuget" = Except.ok pkg)
    (hs : pyContainsChar s '/' = false)
    (hn : pyEndsWith s ".nupkg" = true)
    (hname : pkg.package_name = some n) :
    ∃ v : String, pkg.version = some v ∧
      s.data.take (s.data.length - 6) = n.data ++ '.' :: v.data ∧
      isVersionChars v.data = true ∧
      ∀ n2 v2 : List Char, s.data.take (s.data.length - 6) = n2 ++ '.' :: v2 →
        n2 ≠ [] → isVersionChars v2 = true → n2.length ≤ n.data.length := by
  obtain ⟨hname2, hver⟩ := mk_nuget_bare_name_cases s pkg hok hs hn
  rw [hname] at hname2
  cases hsp : nugetSplit (s.data.take (s.data.length - 6)) with
  | none => rw [hsp] at hname2; cases hname2
  | some pr =>
    rw [hsp] at hname2
    have hn1 : n = (⟨pr.1⟩ : String) := Option.some.inj hname2
    obtain ⟨hl, hne0, hver0, hmax⟩ := nugetSplit_eq_some _ pr.1 pr.2 (by rw [hsp])
    subst hn1
    exact ⟨(⟨pr.2⟩ : String), hver pr.1 pr.2 (by rw [hsp]), hl, hver0, hmax⟩

/-- Witness for C6 at "microsoft.graph.authentication.2.22.0.nupkg". -/
theorem c6_witness_msgraph :
    mkArtifactPackage "microsoft.graph.authentication.2.22.0.nupkg" "nuget" =
      Except.ok msgraphPkg ∧
    msgraphPkg.package_name = some "microsoft.graph.authentication" ∧
    msgraphPkg.version = some "2.22.0" ∧
    (∃ v : String, msgraphPkg.version = some v ∧
      "microsoft.graph.authentication.2.22.0.nupkg".data.take
          ("microsoft.graph.authentication.2.22.0.nupkg".data.length - 6) =
        "microsoft.graph.authentication".data ++ '.' :: v.data ∧
      isVersionChars v.data = true ∧
      ∀ n2 v2 : List Char,
        "microsoft.graph.authentication.2.22.0.nupkg".data.take
            ("microsoft.graph.authentication.2.22.0.nupkg".data.length - 6) =
          n2 ++ '.' :: v2 →
        n2 ≠ [] → isVersionChars v2 = true →
        n2.length ≤ "microsoft.graph.authentication".data.length) :=
  ⟨by decide, by decide, by decide,
   c6_nuget_bare_greedy "microsoft.graph.authentication.2.22.0.nupkg" msgraphPkg
     "microsoft.graph.authentication" (by decide) (by decide) (by decide) (by decide)⟩

/-- Claim C10: the bare nuget filename split only succeeds when the trailing
version has at least three dot-separated numeric components: whenever the
package name resolves from a bare nupkg filename, the resolved version starts
with major.minor.patch (three non-empty digit runs separated by dots).
Contrapositive: a bare filename with a shorter trailing version (such as
"newtonsoft.json.13.0.nupkg", checked in the witness) resolves no name. -/
theorem c10_nuget_bare_min_components (s : String) (pkg : ArtifactPackage) (n : String)
    (hok : mkArtifactPackage s "nuget" = Except.ok pkg)
    (hs : pyContainsChar s '/' = false)
    (hn : pyEndsWith s ".nupkg" = true)
    (hname : pkg.package_name = some n) :
    ∃ v : String, pkg.version = some v ∧
      ∃ a b c r : List Char, v.data = a ++ '.' :: (b ++ '.' :: (c ++ r)) ∧
        a ≠ [] ∧ b ≠ [] ∧ c ≠ [] ∧
        a.all Char.isDigit = true ∧ b.all Char.isDigit = true ∧ c.all Char.isDigit = true := by
  obtain ⟨hname2, hver⟩ := mk_nuget_bare_name_cases s pkg hok hs hn
  rw [hname] at hname2
  cases hsp : nugetSplit (s.data.take (s.data.length - 6)) with
  | none => rw [hsp] at hname2; cases hname2
  | some pr =>
    obtain ⟨_, _, hver0, _⟩ := nugetSplit_eq_some _ pr.1 pr.2 (by rw [hsp])
    exact ⟨(⟨pr.2⟩ : String), hver pr.1 pr.2 (by rw [hsp]),
      isVersionChars_components pr.2 hver0⟩

/-- Witness for C10: "newtonsoft.json.13.0.nupkg" resolves no name (and no
version), while "psscriptanalyzer.1.17.1.nupkg" resolves and its version has
the three numeric components required by the theorem. -/
theorem c10_witness_nuget :
    mkArtifactPackage "newtonsoft.json.13.0.nupkg" "nuget" = Except.ok newtonsoftPkg ∧
    newtonsoftPkg.package_name = none ∧ newtonsoftPkg.version = none ∧
    mkArtifactPackage "psscriptanalyzer.1.17.1.nupkg" "nuget" = Except.ok psscriptPkg ∧
    (∃ v : String, psscriptPkg.version = some v ∧
      ∃ a b c r : List Char, v.data = a ++ '.' :: (b ++ '.' :: (c ++ r)) ∧
        a ≠ [] ∧ b ≠ [] ∧ c ≠ [] ∧
        a.all Char.isDigit = true ∧ b.all Char.isDigit = true ∧ c.all Char.isDigit = true) :=
  ⟨by decide, by decide, by decide, by decide,
   c10_nuget_bare_min_components "psscriptanalyzer.1.17.1.nupkg" psscriptPkg
     "psscriptanalyzer" (by decide) (by decide) (by decide) (by decide)⟩

/-! ### Checker lemmas -/

theorem probeFinal_next_no200 (hd : String → ProbeOutcome) (pkg : ArtifactPackage)
    (repo : String) (pre : List String) (cu : Option String) (urls : List String)
    (st : Option String)
    (hpre : ∀ u ∈ pre, hd u ≠ ProbeOutcome.status 200)
    (h : probeFinal hd pkg repo pre cu = (urls, StepRes.next st)) :
    ∀ u ∈ urls, hd u ≠ ProbeOutcome.status 200 := by
  unfold probeFinal at h
  split at h
  · simp only [Prod.mk.injEq] at h
    rw [← h.1]
    exact hpre
  · rename_i u0
    split at h
    · rename_i ho
      simp only [Prod.mk.injEq] at h
      rw [← h.1]
      intro u hu
      rcases List.mem_append.mp hu with h2 | h2
      · exact hpre u h2
      · rw [List.mem_singleton] at h2
        subst h2
        rw [ho]
        intro hx
        cases hx
    · rename_i c ho
      split at h
      · simp only [Prod.mk.injEq] at h
        cases h.2
      · rename_i hc
        simp only [Prod.mk.injEq] at h
        rw [← h.1]
        intro u hu
        rcases List.mem_append.mp hu with h2 | h2
        · exact hpre u h2
        · rw [List.mem_singleton] at h2
          subst h2
          rw [ho]
          intro hx
          injection hx with hx2
          exact hc hx2

theorem probeFinal_found_spec (hd : String → ProbeOutcome) (pkg : ArtifactPackage)
    (repo : String) (pre : List String) (cu : Option String) (urls : List String)
    (res : CheckResult)
    (hpre : ∀ u ∈ pre, hd u ≠ ProbeOutcome.status 200)
    (h : probeFinal hd pkg repo pre cu = (urls, StepRes.found res)) :
    res = foundResult pkg repo pkg.version ∧
      ∃ us u, urls = us ++ [u] ∧ hd u = ProbeOutcome.status 200 ∧
        ∀ w ∈ us, hd w ≠ ProbeOutcome.status 200 := by
  unfold probeFinal at h
  split at h
  · simp only [Prod.mk.injEq] at h
    cases h.2
  · rename_i u0
    split at h
    · simp only [Prod.mk.injEq] at h
      cases h.2
    · rename_i c ho
      split at h
      · rename_i hc
        simp only [Prod.mk.injEq] at h
        obtain ⟨h1, h2⟩ := h
        injection h2 with h4
        refine ⟨h4.symm, pre, u0, h1.symm, ?_, hpre⟩
        rw [ho, hc]
      · simp only [Prod.mk.injEq] at h
        cases h.2

theorem stepRepo_next_no200 (hd : String → ProbeOutcome) (base : String)
    (pkg : ArtifactPackage) (stale : Option String) (repo : String)
    (urls : List String) (st : Option String)
    (h : stepRepo hd base pkg stale repo = (urls, StepRes.next st)) :
    ∀ u ∈ urls, hd u ≠ ProbeOutcome.status 200 := by
  unfold stepRepo at h
  split at h
  · split at h
    · simp only [Prod.mk.injEq] at h
      cases h.2
    · split at h
      · split at h
        · rename_i ho
          simp only [Prod.mk.injEq] at h
          rw [← h.1]
          intro u hu
          rw [List.mem_singleton] at hu
          subst hu
          rw [ho]
          intro hx
          cases hx
        · rename_i c ho
          split at h
          · simp only [Prod.mk.injEq] at h
            cases h.2
          · rename_i hc
            refine probeFinal_next_no200 hd pkg repo _ _ _ _ ?_ h
            intro u hu
            rw [List.mem_singleton] at hu
            subst hu
            rw [ho]
            intro hx
            injection hx with hx2
            exact hc hx2
      · exact probeFinal_next_no200 hd pkg repo _ _ _ _ (by intro u hu; cases hu) h
  · split at h
    · split at h
      · rename_i ho
        simp only [Prod.mk.injEq] at h
        rw [← h.1]
        intro u hu
        rw [List.mem_singleton] at hu
        subst hu
        rw [ho]
        intro hx
        cases hx
      · rename_i c ho
        split at h
        · simp only [Prod.mk.injEq] at h
          cases h.2
        · rename_i hc
          refine probeFinal_next_no200 hd pkg repo _ _ _ _ ?_ h
          intro u hu
          rw [List.mem_singleton] at hu
          subst hu
          rw [ho]
          intro hx
          injection hx with hx2
          exact hc hx2
    · split at h
      · simp only [Prod.mk.injEq] at h
        cases h.2
      · exact probeFinal_next_no200 hd pkg repo _ _ _ _ (by intro u hu; cases hu) h

theorem stepRepo_found_spec (hd : String → ProbeOutcome) (base : String)
    (pkg : ArtifactPackage) (stale : Option String) (repo : String)
    (urls : List String) (res : CheckResult)
    (h : stepRepo hd base pkg stale repo = (urls, StepRes.found res)) :
    res.found = true ∧ res.repository = some repo ∧
      ∃ us u, urls = us ++ [u] ∧ hd u = ProbeOutcome.status 200 ∧
        ∀ w ∈ us, hd w ≠ ProbeOutcome.status 200 := by
  unfold stepRepo at h
  split at h
  · split at h
    · simp only [Prod.mk.injEq] at h
      cases h.2
    · rename_i nm hnm
      split at h
      · split at h
        · simp only [Prod.mk.injEq] at h
          cases h.2
        · rename_i c ho
          split at h
          · rename_i hc
            simp only [Prod.mk.injEq] at h
            obtain ⟨h1, h2⟩ := h
            injection h2 with h4
            refine ⟨by rw [← h4]; rfl, by rw [← h4]; rfl, [], _, h1.symm, ?_,
              by intro w hw; cases hw⟩
            rw [ho, hc]
          · rename_i hc
            have hpre2 : ∀ u ∈
                [mavenMetadataUrl base repo (splitOnce ':' nm).1 (splitOnce ':' nm).2],
                hd u ≠ ProbeOutcome.status 200 := by
              intro u hu
              rw [List.mem_singleton] at hu
              subst hu
              rw [ho]
              intro hx
              injection hx with hx2
              exact hc hx2
            obtain ⟨hres, us, u, hurls, h200, hus⟩ :=
              probeFinal_found_spec hd pkg repo _ _ _ _ hpre2 h
            exact ⟨by rw [hres]; rfl, by rw [hres]; rfl, us, u, hurls, h200, hus⟩
      · obtain ⟨hres, us, u, hurls, h200, hus⟩ :=
          probeFinal_found_spec hd pkg repo _ _ _ _ (by intro u hu; cases hu) h
        exact ⟨by rw [hres]; rfl, by rw [hres]; rfl, us, u, hurls, h200, hus⟩
  · split at h
    · split at h
      · simp only [Prod.mk.injEq] at h
        cases h.2
      · rename_i c ho
        split at h
        · rename_i hc
          simp only [Prod.mk.injEq] at h
          obtain ⟨h1, h2⟩ := h
          injection h2 with h4
          refine ⟨by rw [← h4]; rfl, by rw [← h4]; rfl, [], _, h1.symm, ?_,
            by intro w hw; cases hw⟩
          rw [ho, hc]
        · rename_i hc
          have hpre2 : ∀ u ∈ [base ++ "/" ++ pkg.path], hd u ≠ ProbeOutcome.status 200 := by
            intro u hu
            rw [List.mem_singleton] at hu
            subst hu
            rw [ho]
            intro hx
            injection hx with hx2
            exact hc hx2
          obtain ⟨hres, us, u, hurls, h200, hus⟩ :=
            probeFinal_found_spec hd pkg repo _ _ _ _ hpre2 h
          exact ⟨by rw [hres]; rfl, by rw [hres]; rfl, us, u, hurls, h200, hus⟩
    · split at h
      · simp only [Prod.mk.injEq] at h
        cases h.2
      · obtain ⟨hres, us, u, hurls, h200, hus⟩ :=
          probeFinal_found_spec hd pkg repo _ _ _ _ (by intro u hu; cases hu) h
        exact ⟨by rw [hres]; rfl, by rw [hres]; rfl, us, u, hurls, h200, hus⟩

theorem map_congr_mem {α β : Type} (l : List α) (f g : α → β) (h : ∀ a ∈ l, f a = g a) :
    l.map f = l.map g := by
  induction l with
  | nil => rfl
  | cons x xs ih =>
    simp only [List.map_cons]
    rw [h x (List.mem_cons_self x xs), ih (fun a ha => h a (List.mem_cons_of_mem x ha))]

theorem map_const_replicate {α β : Type} (l : List α) (b : β) :
    l.map (fun _ => b) = List.replicate l.length b := by
  induction l with
  | nil => rfl
  | cons x xs ih => simp [List.replicate_succ, ih]

theorem checkLoop_found_spec (hd : String → ProbeOutcome) (base : String)
    (pkg : ArtifactPackage) (repos : List String) (stale : Option String)
    (tr : List (String × String)) (res : CheckResult)
    (hnd : repos.Nodup)
    (h : checkLoop hd base pkg repos stale = (tr, Except.ok (some res))) :
    res.found = true ∧
    ∃ r pre post tr0 u, ∃ cnt : String → Nat,
      res.repository = some r ∧
      repos = pre ++ r :: post ∧
      tr = tr0 ++ [(r, u)] ∧ hd u = ProbeOutcome.status 200 ∧
      (∀ x ∈ tr0, hd x.2 ≠ ProbeOutcome.status 200) ∧
      (∀ x ∈ tr, x.1 ∈ pre ++ [r]) ∧
      (∀ q ∈ post, ∀ x ∈ tr, x.1 ≠ q) ∧
      tr.map Prod.fst = ((pre ++ [r]).map (fun p2 => List.replicate (cnt p2) p2)).flatten := by
  induction repos generalizing stale tr with
  | nil =>
    rw [checkLoop] at h
    simp only [Prod.mk.injEq] at h
    cases h.2
  | cons repo rest ih =>
    rw [checkLoop] at h
    split at h
    · rename_i urls res2 hst
      simp only [Prod.mk.injEq] at h
      obtain ⟨h1, h2⟩ := h
      injection h2 with h3
      injection h3 with h4
      subst h4
      obtain ⟨hf1, hf2, us, u, hurls, h200, hus⟩ := stepRepo_found_spec _ _ _ _ _ _ _ hst
      refine ⟨hf1, repo, [], rest, us.map (fun w => (repo, w)), u, fun _ => urls.length,
        hf2, rfl, ?_, h200, ?_, ?_, ?_, ?_⟩
      · rw [← h1, hurls, List.map_append]
        rfl
      · intro x hx
        rw [List.mem_map] at hx
        obtain ⟨w, hw, rfl⟩ := hx
        exact hus w hw
      · intro x hx
        rw [← h1, List.mem_map] at hx
        obtain ⟨w, _, rfl⟩ := hx
        simp
      · intro q hq x hx
        rw [← h1, List.mem_map] at hx
        obtain ⟨w, _, rfl⟩ := hx
        intro hcon
        rw [List.nodup_cons] at hnd
        apply hnd.1
        have hrq : repo = q := hcon
        rw [hrq]
        exact hq
      · rw [← h1, List.map_map]
        show urls.map (fun _ => repo) = _
        rw [map_const_replicate]
        simp
    · simp only [Prod.mk.injEq] at h
      cases h.2
    · rename_i urls st2 hst
      cases hrec : checkLoop hd base pkg rest st2 with
      | mk tr2 out2 =>
        rw [hrec] at h
        simp only [Prod.mk.injEq] at h
        obtain ⟨h1, h2⟩ := h
        rw [h2] at hrec
        rw [List.nodup_cons] at hnd
        obtain ⟨hf, r, pre2, post2, tr02, u, cnt2, hrep, hrest, htr2, h200, htr02, hmem2, hpost2,
          hjoin2⟩ := ih st2 tr2 hnd.2 hrec
        have hchunk : ∀ w ∈ urls, hd w ≠ ProbeOutcome.status 200 :=
          stepRepo_next_no200 _ _ _ _ _ _ _ hst
        refine ⟨hf, r, repo :: pre2, post2, urls.map (fun w => (repo, w)) ++ tr02, u,
          fun p2 => if p2 = repo then urls.length else cnt2 p2, hrep, by rw [hrest]; rfl,
          ?_, h200, ?_, ?_, ?_, ?_⟩
        · rw [← h1, htr2, List.append_assoc]
        · intro x hx
          rcases List.mem_append.mp hx with h3 | h3
          · rw [List.mem_map] at h3
            obtain ⟨w, hw, rfl⟩ := h3
            exact hchunk w hw
          · exact htr02 x h3
        · intro x hx
          rw [← h1] at hx
          rcases List.mem_append.mp hx with h3 | h3
          · rw [List.mem_map] at h3
            obtain ⟨w, _, rfl⟩ := h3
            simp
          · have := hmem2 x h3
            simp only [List.cons_append, List.mem_cons]
            right
            simpa using this
        · intro q hq x hx
          rw [← h1] at hx
          rcases List.mem_append.mp hx with h3 | h3
          · rw [List.mem_map] at h3
            obtain ⟨w, _, rfl⟩ := h3
            intro hcon
            apply hnd.1
            have hrq : repo = q := hcon
            rw [hrest, hrq]
            exact List.mem_append_right pre2 (List.mem_cons_of_mem r hq)
          · exact hpost2 q hq x h3
        · rw [← h1, List.map_append, List.map_map]
          show urls.map (fun _ => repo) ++ tr2.map Prod.fst = _
          have hgr : ∀ p2 ∈ pre2 ++ [r],
              (fun p3 => List.replicate (if p3 = repo then urls.length else cnt2 p3) p3) p2 =
              (fun p3 => List.replicate (cnt2 p3) p3) p2 := by
            intro p2 hp2
            have hp2r : p2 ≠ repo := by
              intro hcon
              apply hnd.1
              rw [hrest, ← hcon]
              rcases List.mem_append.mp hp2 with h4 | h4
              · exact List.mem_append_left _ h4
              · rw [List.mem_singleton] at h4
                rw [h4]
                exact List.mem_append_right _ (List.mem_cons_self r post2)
            simp [hp2r]
          calc urls.map (fun _ => repo) ++ tr2.map Prod.fst
              = List.replicate urls.length repo ++
                ((pre2 ++ [r]).map (fun p2 => List.replicate (cnt2 p2) p2)).flatten := by
                rw [map_const_replicate, hjoin2]
            _ = ((repo :: pre2 ++ [r]).map
                  (fun p2 => List.replicate (if p2 = repo then urls.length else cnt2 p2) p2)).flatten := by
                rw [List.cons_append, List.map_cons, List.flatten_cons]
                rw [map_congr_mem _ _ _ hgr]
                simp

/-- Claim C7: for every docker path, the resolved tag is either the sentinel
"latest" or the fourth path segment — never a value computed from the file at
the end of the path: replacing the final segment of a path with at least five
segments (and no "_uploads" marker as final segment) never changes the tag. -/
theorem c7_docker_tag_from_segment (s : String) (pkg : ArtifactPackage)
    (hok : mkArtifactPackage s "docker" = Except.ok pkg) :
    (pkg.version = some "latest" ∨ pkg.version = (pySplitChar (pyStrip s) '/').get? 3) ∧
    (∀ s2 pkg2, mkArtifactPackage s2 "docker" = Except.ok pkg2 →
      (pySplitChar (pyStrip s) '/').dropLast = (pySplitChar (pyStrip s2) '/').dropLast →
      5 ≤ (pySplitChar (pyStrip s) '/').length →
      (pySplitChar (pyStrip s) '/').getLast? ≠ some "_uploads" →
      (pySplitChar (pyStrip s2) '/').getLast? ≠ some "_uploads" →
      pkg.version = pkg2.version) := by
  have hv : pkg.version = dockerVersion (pyStrip s) := by
    have h2 := mk_docker s
    rw [hok] at h2
    have h3 := Except.ok.inj h2
    rw [h3]
  constructor
  · rw [hv]
    exact dockerVersion_shape (pyStrip s)
  · intro s2 pkg2 hok2 hdp hlen hla hlb
    have hv2 : pkg2.version = dockerVersion (pyStrip s2) := by
      have h2 := mk_docker s2
      rw [hok2] at h2
      have h3 := Except.ok.inj h2
      rw [h3]
    rw [hv, hv2]
    exact dockerVersion_ignores_filename (pyStrip s) (pyStrip s2) hdp hlen hla hlb

theorem filter_true_self {α : Type} (l : List α) : l.filter (fun _ => true) = l := by
  induction l with
  | nil => rfl
  | cons x xs ih => simp [List.filter, ih]

/-- Claim C3: during one verification, candidate repositories are probed
strictly in order and the first candidate whose probe returns HTTP 200 ends
the verification immediately with found=true and that candidate as the
matched repository; every earlier probe was unsuccessful and no candidate
after the matched one is ever probed. -/
theorem c3_first_match_wins (hd : String → ProbeOutcome) (base : String)
    (mappings : String → List String) (pkg : ArtifactPackage)
    (tr : List (String × String)) (res : CheckResult)
    (hnd : (reposToCheck pkg.repo (mappings pkg.package_type)).Nodup)
    (h : checkPackageExists hd base mappings pkg = (tr, Except.ok res))
    (hf : res.found = true) :
    ∃ r pre post tr0 u, ∃ cnt : String → Nat,
      res.repository = some r ∧
      reposToCheck pkg.repo (mappings pkg.package_type) = pre ++ r :: post ∧
      tr = tr0 ++ [(r, u)] ∧ hd u = ProbeOutcome.status 200 ∧
      (∀ x ∈ tr0, hd x.2 ≠ ProbeOutcome.status 200) ∧
      (∀ x ∈ tr, x.1 ∈ pre ++ [r]) ∧
      (∀ q ∈ post, ∀ x ∈ tr, x.1 ≠ q) ∧
      tr.map Prod.fst = ((pre ++ [r]).map (fun p2 => List.replicate (cnt p2) p2)).flatten := by
  unfold checkPackageExists at h
  split at h
  · rename_i tr2 res2 hcl
    simp only [Prod.mk.injEq] at h
    obtain ⟨h1, h2⟩ := h
    injection h2 with h3
    subst h1
    subst h3
    exact (checkLoop_found_spec hd base pkg _ none _ _ hnd hcl).2
  · rename_i tr2 hcl
    simp only [Prod.mk.injEq] at h
    obtain ⟨h1, h2⟩ := h
    injection h2 with h3
    rw [← h3] at hf
    simp [notFoundResult] at hf
  · simp only [Prod.mk.injEq] at h
    cases h.2

/-- Witness for C3: with an oracle where only the second candidate hits, the
checker returns that candidate and the third candidate is never probed. -/
theorem c3_witness_first_match :
    checkPackageExists hitRemote artBase defaultRepoMappings pkgX =
      ([("nuget-local", "https://repo.example/nuget-local/None/None"),
        ("nuget-remote", "https://repo.example/nuget-remote/None/None")],
       Except.ok { path := "x", package_name := none, package_type := "nuget", version := none,
                   found := true, repository := some "nuget-remote", error := none }) ∧
    (∃ r pre post tr0 u, ∃ cnt : String → Nat,
      ({ path := "x", package_name := none, package_type := "nuget", version := none,
         found := true, repository := some "nuget-remote",
         error := none } : CheckResult).repository = some r ∧
      reposToCheck pkgX.repo (defaultRepoMappings pkgX.package_type) = pre ++ r :: post ∧
      [("nuget-local", "https://repo.example/nuget-local/None/None"),
       ("nuget-remote", "https://repo.example/nuget-remote/None/None")] = tr0 ++ [(r, u)] ∧
      hitRemote u = ProbeOutcome.status 200 ∧
      (∀ x ∈ tr0, hitRemote x.2 ≠ ProbeOutcome.status 200) ∧
      (∀ x ∈ ([("nuget-local", "https://repo.example/nuget-local/None/None"),
        ("nuget-remote", "https://repo.example/nuget-remote/None/None")] :
          List (String × String)), x.1 ∈ pre ++ [r]) ∧
      (∀ q ∈ post, ∀ x ∈ ([("nuget-local", "https://repo.example/nuget-local/None/None"),
        ("nuget-remote", "https://repo.example/nuget-remote/None/None")] :
          List (String × String)), x.1 ≠ q) ∧
      ([("nuget-local", "https://repo.example/nuget-local/None/None"),
        ("nuget-remote", "https://repo.example/nuget-remote/None/None")] :
          List (String × String)).map Prod.fst =
        ((pre ++ [r]).map (fun p2 => List.replicate (cnt p2) p2)).flatten) :=
  ⟨by decide,
   c3_first_match_wins hitRemote artBase defaultRepoMappings pkgX
     [("nuget-local", "https://repo.example/nuget-local/None/None"),
      ("nuget-remote", "https://repo.example/nuget-remote/None/None")]
     { path := "x", package_name := none, package_type := "nuget", version := none,
       found := true, repository := some "nuget-remote", error := none }
     (by decide) (by decide) rfl⟩

/-- Claim C4: the probe order is the repository hint (when present, i.e.
non-empty) first, followed by the catalog candidates of the ecosystem with
the hint removed, preserving catalog order; with no hint it is exactly the
catalog list; and it has no duplicates when the catalog list has none. -/
theorem c4_probe_order (hint : Option String) (cands : List String)
    (hne : ∀ r, hint = some r → r ≠ "") (hnd : cands.Nodup) :
    (∀ r, hint = some r →
      reposToCheck hint cands = r :: cands.filter (fun x => x != r) ∧
      (reposToCheck hint cands).head? = some r) ∧
    (hint = none → reposToCheck hint cands = cands) ∧
    (reposToCheck hint cands).Nodup := by
  cases hint with
  | none =>
    refine ⟨?_, ?_, ?_⟩
    · intro r hr
      cases hr
    · intro hh
      show cands.filter (fun _ => true) = cands
      exact filter_true_self cands
    · show (cands.filter (fun _ => true)).Nodup
      rw [filter_true_self cands]
      exact hnd
  | some r0 =>
    have hr0 : r0 ≠ "" := hne r0 rfl
    have hrw : reposToCheck (some r0) cands = r0 :: cands.filter (fun x => x != r0) := by
      show (if r0 = "" then [] else [r0]) ++ cands.filter (fun x => x != r0) = _
      rw [if_neg hr0]
      rfl
    refine ⟨?_, ?_, ?_⟩
    · intro r hr
      injection hr with hr2
      subst hr2
      exact ⟨hrw, by rw [hrw]; rfl⟩
    · intro hcon
      cases hcon
    · rw [hrw, List.nodup_cons]
      constructor
      · intro hmem
        rw [List.mem_filter] at hmem
        simp at hmem
      · exact List.Nodup.filter _ hnd

/-- Witness for C4: the hint goes first and the remaining candidates keep
their order with the hint removed and no duplicates. -/
theorem c4_witness_order :
    reposToCheck (some "repo-a") ["repo-b", "repo-a", "repo-c"] = ["repo-a", "repo-b", "repo-c"] ∧
    (reposToCheck (some "repo-a") ["repo-b", "repo-a", "repo-c"]).Nodup := by
  have h := c4_probe_order (some "repo-a") ["repo-b", "repo-a", "repo-c"]
    (by intro r hr; injection hr with h2; rw [← h2]; decide) (by decide)
  refine ⟨?_, h.2.2⟩
  rw [(h.1 "repo-a" rfl).1]
  decide

/-- Claim C5: the batch phase produces exactly one result per submitted
identity, and an identity whose verification raises yields a found=false
result carrying the failure message for that identity without aborting the
other tasks or the batch. -/
theorem c5_batch_cardinality (hd : String → ProbeOutcome) (base : String)
    (mappings : String → List String) (pkgs : List ArtifactPackage) (i : Nat)
    (hi : i < pkgs.length) (e : String)
    (h : (checkPackageExists hd base mappings pkgs[i]).2 = Except.error e) :
    (processPackages hd base mappings pkgs).length = pkgs.length ∧
    ∃ hj : i < (processPackages hd base mappings pkgs).length,
      (processPackages hd base mappings pkgs)[i].found = false ∧
      (processPackages hd base mappings pkgs)[i].error = some e ∧
      (processPackages hd base mappings pkgs)[i].path = pkgs[i].path := by
  have hlen : (processPackages hd base mappings pkgs).length = pkgs.length := by
    unfold processPackages
    exact List.length_map _ _
  have hj : i < (processPackages hd base mappings pkgs).length := by
    rw [hlen]
    exact hi
  have hget : (processPackages hd base mappings pkgs)[i] =
      taskResult hd base mappings pkgs[i] := by
    unfold processPackages
    rw [List.getElem_map]
  have htask : taskResult hd base mappings pkgs[i] =
      { path := pkgs[i].path, package_name := pkgs[i].package_name,
        package_type := pkgs[i].package_type, version := pkgs[i].version,
        found := false, repository := none, error := some e } := by
    unfold taskResult
    rw [h]
  refine ⟨hlen, hj, ?_, ?_, ?_⟩ <;> rw [hget, htask]

/-- Witness for C5: a maven identity with an absent name makes the verifier
raise, and the batch still yields one found=false result with the message. -/
theorem c5_witness_batch :
    (checkPackageExists allMiss artBase defaultRepoMappings pkgQW).2 =
      Except.error "TypeError" ∧
    (processPackages allMiss artBase defaultRepoMappings [pkgQW]).length = 1 ∧
    ∃ hj : 0 < (processPackages allMiss artBase defaultRepoMappings [pkgQW]).length,
      (processPackages allMiss artBase defaultRepoMappings [pkgQW])[0].found = false ∧
      (processPackages allMiss artBase defaultRepoMappings [pkgQW])[0].error =
        some "TypeError" ∧
      (processPackages allMiss artBase defaultRepoMappings [pkgQW])[0].path =
        ([pkgQW] : List ArtifactPackage)[0].path := by
  have h := c5_batch_cardinality allMiss artBase defaultRepoMappings [pkgQW] 0 (by decide)
    "TypeError" (by decide)
  exact ⟨by decide, h.1, h.2⟩

/-- Claim C1 counterexample: an identity with absent canonical name and
version (the bare nuget input "x") still triggers HTTP probes — the probe
trace is non-empty, refuting the no-probe guarantee. -/
theorem c1_counterexample_probes :
    mkArtifactPackage "x" "nuget" = Except.ok pkgX ∧
    pkgX.package_name = none ∧ pkgX.version = none ∧
    (checkPackageExists allMiss artBase defaultRepoMappings pkgX).1 ≠ [] :=
  ⟨by decide, by decide, by decide, by decide⟩

/-- Claim C1 (amended): an unresolved identity is not short-circuited — the
checker probes every candidate repository with the literal string "None"
substituted for the missing name and version, and only after every probe
misses does it return the ordinary exhausted-candidates not-found result. -/
theorem c1_amended_no_short_circuit :
    (checkPackageExists allMiss artBase defaultRepoMappings pkgX).1 =
      [("nuget-local", "https://repo.example/nuget-local/None/None"),
       ("nuget-remote", "https://repo.example/nuget-remote/None/None"),
       ("nuget-virtual", "https://repo.example/nuget-virtual/None/None")] ∧
    (checkPackageExists allMiss artBase defaultRepoMappings pkgX).2 = Except.ok
      { path := "x", package_name := none, package_type := "nuget", version := none,
        found := false, repository := none,
        error := some "Package not found in repositories: nuget-local, nuget-remote, nuget-virtual" } :=
  ⟨by decide, by decide⟩

/-- Claim C8 counterexample: the exhausted-candidates error string produced by
the checker is "Package not found in repositories: ...", which is not of the
claimed form "not found in: ...". -/
theorem c8_counterexample_error_format :
    (checkPackageExists allMiss artBase defaultRepoMappings pkgX).2 = Except.ok
      { path := "x", package_name := none, package_type := "nuget", version := none,
        found := false, repository := none,
        error := some "Package not found in repositories: nuget-local, nuget-remote, nuget-virtual" } ∧
    (some "Package not found in repositories: nuget-local, nuget-remote, nuget-virtual" :
        Option String) ≠
      some ("not found in: " ++ String.intercalate ", "
        ["nuget-local", "nuget-remote", "nuget-virtual"]) :=
  ⟨by decide, by decide⟩

/-- Claim C8 (amended): when every candidate's probe fails, the verifier
returns found=false, no matched repository, and the error string
"Package not found in repositories: " followed by the comma-joined attempted
candidates in probe order. -/
theorem c8_amended_exhausted (hd : String → ProbeOutcome) (base : String)
    (mappings : String → List String) (pkg : ArtifactPackage)
    (tr : List (String × String))
    (h : checkLoop hd base pkg (reposToCheck pkg.repo (mappings pkg.package_type)) none =
      (tr, Except.ok none)) :
    (checkPackageExists hd base mappings pkg).2 = Except.ok
      { path := pkg.path, package_name := pkg.package_name, package_type := pkg.package_type,
        version := if isMetadataFile pkg then none else pkg.version,
        found := false, repository := none,
        error := some ("Package not found in repositories: " ++
          String.intercalate ", " (reposToCheck pkg.repo (mappings pkg.package_type))) } := by
  unfold checkPackageExists
  rw [h]
  rfl

/-- Witness for the amended C8 theorem at the concrete all-miss scenario. -/
theorem c8_witness_exhausted :
    (∃ tr, checkLoop allMiss artBase pkgX
        (reposToCheck pkgX.repo (defaultRepoMappings pkgX.package_type)) none =
        (tr, Except.ok none)) ∧
    (checkPackageExists allMiss artBase defaultRepoMappings pkgX).2 = Except.ok
      { path := pkgX.path, package_name := pkgX.package_name,
        package_type := pkgX.package_type,
        version := if isMetadataFile pkgX then none else pkgX.version,
        found := false, repository := none,
        error := some ("Package not found in repositories: " ++
          String.intercalate ", "
            (reposToCheck pkgX.repo (defaultRepoMappings pkgX.package_type))) } :=
  ⟨⟨_, rfl⟩, c8_amended_exhausted allMiss artBase defaultRepoMappings pkgX _ rfl⟩

/-- Claim C9 counterexample: a default key that is present in the live catalog
but with a non-matching reported type does not shrink the candidate list —
the mapping stays the full default rather than the present-defaults subset
the claim requires. -/
theorem c9_counterexample_type_guard :
    updateMapping "python" ["pypi-local", "pypi-remote", "pypi-virtual"]
      [("pypi-local", "npm")] = ["pypi-local", "pypi-remote", "pypi-virtual"] ∧
    availHasKey [("pypi-local", "npm")] "pypi-local" = true ∧
    updateMapping "python" ["pypi-local", "pypi-remote", "pypi-virtual"]
      [("pypi-local", "npm")] ≠ ["pypi-local"] :=
  ⟨by decide, by decide, by decide⟩

/-- Claim C9 (amended): the live filtering applies only when at least one
live repository's reported type matches the ecosystem; in that case the list
becomes the current entries present in the live catalog when any exist, and
otherwise all live repositories of the matching type; when no live repository
type matches, the list is kept unchanged. -/
theorem c9_amended_update_rule (pkgType mt : String) (current : List String)
    (available : List (String × String)) (hmt : matchingTypeFor pkgType = some mt) :
    (reposByType available mt = [] → updateMapping pkgType current available = current) ∧
    (reposByType available mt ≠ [] →
      updateMapping pkgType current available =
        (if (current.filter (fun r => availHasKey available r)).isEmpty = true
         then reposByType available mt
         else current.filter (fun r => availHasKey available r))) := by
  unfold updateMapping
  rw [hmt]
  constructor
  · intro he
    show (if (reposByType available mt).isEmpty = true then current
          else if (current.filter (fun r => availHasKey available r)).isEmpty = true
               then reposByType available mt
               else current.filter (fun r => availHasKey available r)) = current
    rw [he]
    rfl
  · intro hne
    have hemp : (reposByType available mt).isEmpty = false := by
      rw [Bool.eq_false_iff]
      intro hcon
      exact hne (List.isEmpty_iff.mp hcon)
    show (if (reposByType available mt).isEmpty = true then current
          else if (current.filter (fun r => availHasKey available r)).isEmpty = true
               then reposByType available mt
               else current.filter (fun r => availHasKey available r)) = _
    rw [hemp]
    rfl

/-- Witness for the amended C9 rule: with one live pypi repository and no
default key present, the python list becomes the live repository. -/
theorem c9_witness_update :
    matchingTypeFor "python" = some "pypi" ∧
    updateMapping "python" ["pypi-local", "pypi-remote", "pypi-virtual"]
      [("other-repo", "pypi")] = ["other-repo"] := by
  have h := c9_amended_update_rule "python" "pypi"
    ["pypi-local", "pypi-remote", "pypi-virtual"] [("other-repo", "pypi")] (by decide)
  refine ⟨by decide, ?_⟩
  rw [h.2 (by decide)]
  decide

/-- Witness for C7 at the claim's hyphenated-tag scenario: the digest-named
and manifest-named files under the same tag directory resolve the same tag. -/
theorem c7_witness_docker :
    mkArtifactPackage "docker/bitnami/cert-manager/1.17.1-debian-12-r4/sha256abc123def456.json"
        "docker" = Except.ok dockerShaPkg ∧
    dockerShaPkg.version = some "1.17.1-debian-12-r4" ∧
    mkArtifactPackage "docker/bitnami/cert-manager/1.17.1-debian-12-r4/manifest.json" "docker" =
      Except.ok dockerManifestPkg ∧
    dockerShaPkg.version = dockerManifestPkg.version :=
  ⟨by decide, by decide, by decide,
   (c7_docker_tag_from_segment
       "docker/bitnami/cert-manager/1.17.1-debian-12-r4/sha256abc123def456.json"
       dockerShaPkg (by decide)).2
     "docker/bitnami/cert-manager/1.17.1-debian-12-r4/manifest.json"
     dockerManifestPkg (by decide) (by decide) (by decide) (by decide) (by decide)⟩

end PackageHound
